import Mathlib

/-!
A verification of the metadata-server purge queue (`src/mds/PurgeQueue.cc`) against its
design specification.  The purge queue drains a journal of deferred-deletion intents:
`_consume` reads intents and dispatches them (`_execute_item`), `execute_item_complete`
retires them and advances the journal expiry position, `can_consume` throttles dispatch,
`_calculate_ops` prices an intent, `update_op_limit` recomputes the op ceiling from the
cluster maps, and `handle_conf_change` reacts to configuration changes.  `PurgeItem`
intents are serialized with a versioned binary codec (`PurgeItem::encode` / `decode`).

Machine integers are modelled as `Nat` / `Int`; collaborator types that live outside the
repository (`file_layout_t`, `fragtree_t`, `SnapContext`, `Striper`) are modelled from the
specification text, as noted on each definition.
-/

namespace PQ

/-- Modelled from the spec: file_layout_t is declared outside this repository; §3 gives its
fields (stripe unit, stripe count, object size, pool id, optional pool namespace).  The
pool namespace is kept as a byte list so that emptiness and encoding are direct. -/
structure FileLayout where
  stripe_unit : Nat
  stripe_count : Nat
  object_size : Nat
  pool_id : Int
  pool_ns : List Nat
  deriving Repr, DecidableEq

/-- Modelled from the spec: SnapContext (§3) is a snapshot sequence number plus an ordered
list of snapshot ids. -/
structure SnapContext where
  seq : Nat
  snaps : List Nat
  deriving Repr, DecidableEq

/-- A purge intent, from `class PurgeItem`.  The action is kept as the raw (u8-encodable)
numeral the codec stores, so that unknown future actions are representable, as in the
source where `decode` casts an arbitrary byte into the enum.  The fragment tree of a
directory inode is modelled from the spec (fragtree_t is declared outside this
repository): the list of non-root leaf fragments, empty when the root is itself a leaf
(`fragtree.is_leaf(frag_t())` in the source). -/
structure PurgeItem where
  action : Nat
  ino : Nat
  size : Nat
  layout : FileLayout
  old_pools : List Int
  snapc : SnapContext
  fragtree : List Nat
  deriving Repr, DecidableEq

/-- Modelled from the spec: enum values of `PurgeItem::Action` (declared in the header,
outside src/); only their distinctness and u8 range matter here. -/
def ACTION_NONE : Nat := 0

def PURGE_FILE : Nat := 1

def TRUNCATE_FILE : Nat := 2

def PURGE_DIR : Nat := 3

/-- An action the dispatch switch in `_execute_item` recognizes; anything else falls into
the invalid-item branch that drops the intent. -/
def knownAction (a : Nat) : Bool :=
  a = PURGE_FILE || a = PURGE_DIR || a = TRUNCATE_FILE

/-- Modelled from the spec: `Striper::get_num_objects` is not under src/.  The glossary
defines the stripe count as the number of objects needed to hold `size` bytes under the
layout; for the stripe-count-1 layouts of the spec scenarios this is ⌈size /
object_size⌉, and 0 bytes need 0 objects. -/
def stripeCount (l : FileLayout) (size : Nat) : Nat :=
  (size + l.object_size - 1) / l.object_size

/-- Source `PurgeQueue::_calculate_ops`, parametric in the `filer_max_purge_ops` configuration
value and in the collaborator `Striper::get_num_objects` (`numObjects`). -/
def calculate_ops (filer_max_purge_ops : Nat) (numObjects : FileLayout → Nat → Nat)
    (item : PurgeItem) : Nat :=
  if item.action = PURGE_DIR then
    -- Directory: count dirfrags to be deleted; one for the root, plus any leaves
    let ls : List Nat := if item.fragtree = [] then [] else item.fragtree
    1 + ls.length
  else
    -- File: concurrent purge deletes, capped, plus backtrace, plus old pools
    let num : Nat := if 0 < item.size then numObjects item.layout item.size else 1
    let ops1 : Nat := min num filer_max_purge_ops + 1
    if item.action ≠ TRUNCATE_FILE then ops1 + item.old_pools.length else ops1

/-- Source `PurgeQueue::can_consume`, over the four quantities it reads: `ops_in_flight`,
`max_purge_ops`, `in_flight.size()`, and the `mds_max_purge_files` configuration. -/
def can_consume (ops_in_flight max_purge_ops in_flight_size mds_max_purge_files : Nat) :
    Bool :=
  if in_flight_size = 0 ∧ 0 < mds_max_purge_files then
    true
  else if max_purge_ops ≤ ops_in_flight then
    false
  else if mds_max_purge_files ≤ in_flight_size then
    false
  else
    true

/-- The throttle rule exactly as the spec words it (§4.3), for comparison with
`can_consume`: pause if `max_purge_files` is 0; admit if nothing is in flight; refuse on
either budget being reached; admit otherwise. -/
def canConsumeSpec (ops_in_flight max_purge_ops in_flight_size mds_max_purge_files : Nat) :
    Bool :=
  if mds_max_purge_files = 0 then
    false
  else if in_flight_size = 0 then
    true
  else if max_purge_ops ≤ ops_in_flight then
    false
  else if mds_max_purge_files ≤ in_flight_size then
    false
  else
    true

/-- In the `PURGE_FILE` branch of `_execute_item`, the number of gather subs registered
before the backtrace-removal decision: one `purge_range` sub exactly when `size > 0`. -/
def purge_range_subs (item : PurgeItem) : Nat :=
  if 0 < item.size then 1 else 0

/-- Whether the `PURGE_FILE` branch of `_execute_item` issues the backtrace-object
removal: `!gather.has_subs() || !item.layout.pool_ns.empty()`. -/
def backtrace_removed (item : PurgeItem) : Bool :=
  decide (purge_range_subs item = 0) || decide (item.layout.pool_ns ≠ [])

/-- The backtrace-removal rule as the claim words it: remove unless the file had zero
stripe objects and an empty pool namespace. -/
def backtraceRemovedClaim (numObjects : FileLayout → Nat → Nat) (item : PurgeItem) :
    Bool :=
  decide (¬ (numObjects item.layout item.size = 0 ∧ item.layout.pool_ns = []))

/-- Number of gather subs `_execute_item` registers for an intent, by action: purge-range
plus optional backtrace remove plus old-pool removes for files; one remove per leaf frag
plus the root frag for directories; optional tail purge plus the zero op for truncates;
none for the invalid-item branch. -/
def gather_sub_count (numObjects : FileLayout → Nat → Nat) (item : PurgeItem) : Nat :=
  if item.action = PURGE_FILE then
    purge_range_subs item + (if backtrace_removed item then 1 else 0) +
      item.old_pools.length
  else if item.action = PURGE_DIR then
    (if item.fragtree = [] then [] else item.fragtree).length + 1
  else if item.action = TRUNCATE_FILE then
    (if 1 < numObjects item.layout item.size then 1 else 0) + 1
  else 0

/-! ## The dispatch / completion state machine

`in_flight` is `std::map<uint64_t, PurgeItem>`: an ordered map from the journal offset
just past the record of an intent (`expire_to`) to the intent.  It is modelled as an
association list kept sorted by strictly increasing key; `iter == in_flight.begin()`
becomes a test against the head. -/

/-- The keys of the in-flight map. -/
def keysOf (l : List (Nat × PurgeItem)) : List Nat :=
  l.map Prod.fst

/-- Ordered-map insert (`in_flight[expire_to] = item`): place the binding at its sorted
position, overwriting an equal key. -/
def mapInsert (k : Nat) (v : PurgeItem) : List (Nat × PurgeItem) → List (Nat × PurgeItem)
  | [] => [(k, v)]
  | (k0, v0) :: t =>
    if k < k0 then (k, v) :: (k0, v0) :: t
    else if k = k0 then (k, v) :: t
    else (k0, v0) :: mapInsert k v t

/-- Ordered-map erase (`in_flight.erase`). -/
def mapErase (k : Nat) (l : List (Nat × PurgeItem)) : List (Nat × PurgeItem) :=
  l.filter (fun kv => kv.1 ≠ k)

/-- Ordered-map lookup (`in_flight.find`). -/
def mapFind (k : Nat) : List (Nat × PurgeItem) → Option PurgeItem
  | [] => none
  | (k0, v0) :: t => if k0 = k then some v0 else mapFind k t

/-- Whether `k` is the first (smallest) key, i.e. `in_flight.find(k) == in_flight.begin()`
for a key present in the sorted map. -/
def isFirstKey (k : Nat) : List (Nat × PurgeItem) → Bool
  | [] => false
  | (k0, _) :: _ => k0 = k

/-- The purge-queue state the claims quantify over: the journal cursors (`write_pos`,
`read_pos`, `expire_pos` of the Journaler), the in-flight map, the op counter, and the
`filer_max_purge_ops` configuration value read by `_calculate_ops`. -/
structure PQState where
  write_pos : Nat
  read_pos : Nat
  expire_pos : Nat
  in_flight : List (Nat × PurgeItem)
  ops_in_flight : Nat
  conf_filer_max_purge_ops : Nat
  deriving Repr, DecidableEq

/-- Events of a purge-queue history: a `push` appends a record of `len` bytes to the
journal; a `dispatch` is one iteration of `_consume` reading a record of `len` bytes and
calling `_execute_item`; a `complete` is `execute_item_complete` for offset `k`; a
`setFiler` changes the `filer_max_purge_ops` configuration. -/
inductive PQEvent where
  | push (len : Nat)
  | dispatch (item : PurgeItem) (len : Nat)
  | complete (k : Nat)
  | setFiler (n : Nat)
  deriving Repr, DecidableEq

/-- One step of the purge queue.  Events whose preconditions fail (a dispatch while the
journal is unreadable, a completion for an absent key — an assert in the source) leave the
state unchanged.

`dispatch`: `_consume` reads the next entry, so `read_pos` advances by the record length
and `expire_to = journaler.get_read_pos()` is the new read position; `_execute_item`
inserts the intent, adds `_calculate_ops` to `ops_in_flight`, and — for an unrecognized
action — erases the map entry again without touching `ops_in_flight` and returns.

`complete`: `execute_item_complete` sets `expire_pos = expire_to` when the entry is
`in_flight.begin()`, subtracts `_calculate_ops` recomputed against the current
configuration, and erases the entry. -/
def step (numObjects : FileLayout → Nat → Nat) (s : PQState) (e : PQEvent) : PQState :=
  match e with
  | .push len => { s with write_pos := s.write_pos + len }
  | .dispatch item len =>
    if 0 < len ∧ s.read_pos + len ≤ s.write_pos then
      let rp := s.read_pos + len
      let inserted := mapInsert rp item s.in_flight
      let s1 := { s with
        read_pos := rp
        in_flight := inserted
        ops_in_flight :=
          s.ops_in_flight + calculate_ops s.conf_filer_max_purge_ops numObjects item }
      if knownAction item.action then s1
      else { s1 with in_flight := mapErase rp inserted }
    else s
  | .complete k =>
    match mapFind k s.in_flight with
    | none => s
    | some item =>
      let s1 := if isFirstKey k s.in_flight then { s with expire_pos := k } else s
      { s1 with
        ops_in_flight :=
          s1.ops_in_flight - calculate_ops s.conf_filer_max_purge_ops numObjects item
        in_flight := mapErase k s1.in_flight }
  | .setFiler n => { s with conf_filer_max_purge_ops := n }

/-- Run a history of events. -/
def run (numObjects : FileLayout → Nat → Nat) (s : PQState) : List PQEvent → PQState
  | [] => s
  | e :: t => run numObjects (step numObjects s e) t

/-- The state right after `open`: cursors recovered from the journal head (with the
recovered expiry no later than the read position), nothing in flight. -/
def initState (wpos rpos epos fmpo : Nat) : PQState :=
  { write_pos := wpos, read_pos := rpos, expire_pos := epos, in_flight := [],
    ops_in_flight := 0, conf_filer_max_purge_ops := fmpo }

/-- A reachable state: the result of running a history from a freshly opened queue. -/
def reach (numObjects : FileLayout → Nat → Nat) (wpos rpos epos fmpo : Nat)
    (hist : List PQEvent) : PQState :=
  run numObjects (initState wpos rpos epos fmpo) hist

/-- The state invariant: in-flight keys are strictly sorted, every key is a position
already read, the expiry position is no later than any in-flight key, and the expiry
position is no later than the read position. -/
def InvS (s : PQState) : Prop :=
  s.in_flight.Pairwise (fun a b => a.1 < b.1) ∧
  (∀ kv ∈ s.in_flight, kv.1 ≤ s.read_pos) ∧
  (∀ kv ∈ s.in_flight, s.expire_pos ≤ kv.1) ∧
  s.expire_pos ≤ s.read_pos

theorem mapInsert_of_lt (k : Nat) (v : PurgeItem) :
    ∀ l : List (Nat × PurgeItem), (∀ kv ∈ l, kv.1 < k) →
      mapInsert k v l = l ++ [(k, v)] := by
  intro l
  induction l with
  | nil => intro _; rfl
  | cons hd t ih =>
    intro h
    have hk0 : hd.1 < k := h hd (by simp)
    obtain ⟨k0, v0⟩ := hd
    simp only [mapInsert]
    rw [if_neg (by omega), if_neg (by omega)]
    rw [ih (fun kv hkv => h kv (by simp [hkv]))]
    simp

theorem mapErase_append_of_lt (k : Nat) (v : PurgeItem) (l : List (Nat × PurgeItem))
    (h : ∀ kv ∈ l, kv.1 < k) : mapErase k (l ++ [(k, v)]) = l := by
  unfold mapErase
  rw [List.filter_append]
  have h1 : l.filter (fun kv => kv.1 ≠ k) = l := by
    rw [List.filter_eq_self]
    intro kv hkv
    simp only [ne_eq, decide_eq_true_eq]
    have := h kv hkv
    omega
  have h2 : List.filter (fun kv => kv.1 ≠ k) [(k, v)] = [] := by simp
  rw [h1, h2, List.append_nil]

theorem mem_mapErase {kv : Nat × PurgeItem} {k : Nat} {l : List (Nat × PurgeItem)}
    (h : kv ∈ mapErase k l) : kv ∈ l ∧ kv.1 ≠ k := by
  unfold mapErase at h
  have := List.mem_filter.mp h
  simpa using this

theorem mapErase_sublist (k : Nat) (l : List (Nat × PurgeItem)) :
    (mapErase k l).Sublist l :=
  List.filter_sublist l

theorem mapFind_mem {k : Nat} {v : PurgeItem} :
    ∀ {l : List (Nat × PurgeItem)}, mapFind k l = some v → (k, v) ∈ l := by
  intro l
  induction l with
  | nil => intro h; simp [mapFind] at h
  | cons hd t ih =>
    intro h
    obtain ⟨k0, v0⟩ := hd
    simp only [mapFind] at h
    by_cases hk : k0 = k
    · rw [if_pos hk] at h
      subst hk
      simp at h
      simp [h]
    · rw [if_neg hk] at h
      simp [ih h]

theorem isFirstKey_shape {k : Nat} {l : List (Nat × PurgeItem)}
    (h : isFirstKey k l = true) : ∃ v t, l = (k, v) :: t := by
  match l with
  | [] => simp [isFirstKey] at h
  | (k0, v0) :: t =>
    simp only [isFirstKey, decide_eq_true_eq] at h
    exact ⟨v0, t, by rw [h]⟩

theorem invS_intro {w r e ops fm : Nat} {l : List (Nat × PurgeItem)}
    (h1 : l.Pairwise (fun a b => a.1 < b.1)) (h2 : ∀ kv ∈ l, kv.1 ≤ r)
    (h3 : ∀ kv ∈ l, e ≤ kv.1) (h4 : e ≤ r) :
    InvS (PQState.mk w r e l ops fm) :=
  ⟨h1, h2, h3, h4⟩

theorem step_preserves_inv (numObjects : FileLayout → Nat → Nat) (s : PQState)
    (e : PQEvent) (h : InvS s) : InvS (step numObjects s e) := by
  obtain ⟨hsort, hkr, hek, her⟩ := h
  cases e with
  | push len =>
    exact invS_intro hsort hkr hek her
  | setFiler n =>
    exact invS_intro hsort hkr hek her
  | dispatch item len =>
    by_cases hc : 0 < len ∧ s.read_pos + len ≤ s.write_pos
    · have hlt : ∀ kv ∈ s.in_flight, kv.1 < s.read_pos + len := by
        intro kv hkv
        have := hkr kv hkv
        omega
      have hins : mapInsert (s.read_pos + len) item s.in_flight =
          s.in_flight ++ [(s.read_pos + len, item)] :=
        mapInsert_of_lt _ _ _ hlt
      by_cases hka : knownAction item.action
      · simp only [step, if_pos hc, hka, if_true, hins]
        refine invS_intro ?_ ?_ ?_ ?_
        · rw [List.pairwise_append]
          refine ⟨hsort, List.pairwise_singleton _ _, ?_⟩
          intro a ha b hb
          simp only [List.mem_singleton] at hb
          rw [hb]
          exact hlt a ha
        · intro kv hkv
          rcases List.mem_append.mp hkv with hl | hr
          · have := hkr kv hl; omega
          · simp only [List.mem_singleton] at hr
            rw [hr]
        · intro kv hkv
          rcases List.mem_append.mp hkv with hl | hr
          · exact hek kv hl
          · simp only [List.mem_singleton] at hr
            rw [hr]
            simp only
            omega
        · omega
      · simp only [step, if_pos hc, hka, if_false, Bool.false_eq_true, hins]
        rw [mapErase_append_of_lt _ _ _ hlt]
        refine invS_intro hsort ?_ hek (by omega)
        intro kv hkv
        have := hkr kv hkv
        omega
    · simp only [step, if_neg hc]
      exact invS_intro hsort hkr hek her
  | complete k =>
    cases hfind : mapFind k s.in_flight with
    | none =>
      simp only [step, hfind]
      exact invS_intro hsort hkr hek her
    | some item =>
      by_cases hfirst : isFirstKey k s.in_flight = true
      · obtain ⟨v, t, hshape⟩ := isFirstKey_shape hfirst
        simp only [step, hfind, hfirst, if_true]
        refine invS_intro ?_ ?_ ?_ ?_
        · exact List.Pairwise.sublist (mapErase_sublist _ _) hsort
        · intro kv hkv
          exact hkr kv (mem_mapErase hkv).1
        · intro kv hkv
          obtain ⟨hmem, hne⟩ := mem_mapErase hkv
          rw [hshape] at hmem hsort
          rcases List.mem_cons.mp hmem with heq | hmem
          · exact absurd (by rw [heq]) hne
          · have := (List.pairwise_cons.mp hsort).1 kv hmem
            omega
        · have hkmem : (k, v) ∈ s.in_flight := by rw [hshape]; simp
          exact hkr (k, v) hkmem
      · simp only [step, hfind, hfirst, if_false, Bool.false_eq_true]
        refine invS_intro ?_ ?_ ?_ her
        · exact List.Pairwise.sublist (mapErase_sublist _ _) hsort
        · intro kv hkv
          exact hkr kv (mem_mapErase hkv).1
        · intro kv hkv
          exact hek kv (mem_mapErase hkv).1

theorem run_preserves_inv (numObjects : FileLayout → Nat → Nat) (s : PQState)
    (hist : List PQEvent) (h : InvS s) : InvS (run numObjects s hist) := by
  induction hist generalizing s with
  | nil => exact h
  | cons e t ih => exact ih _ (step_preserves_inv numObjects s e h)

theorem initState_inv (wpos rpos epos fmpo : Nat) (h : epos ≤ rpos) :
    InvS (initState wpos rpos epos fmpo) := by
  refine ⟨List.Pairwise.nil, ?_, ?_, h⟩ <;> intro kv hkv <;> simp [initState] at hkv

/-- Any step that changes `expire_pos` is a completion for a key that is present and
smallest, and sets `expire_pos` to exactly that key. -/
theorem expire_change_shape (numObjects : FileLayout → Nat → Nat) (s : PQState)
    (e : PQEvent) (hinv : InvS s)
    (hch : (step numObjects s e).expire_pos ≠ s.expire_pos) :
    ∃ k item, e = PQEvent.complete k ∧
      mapFind k s.in_flight = some item ∧
      isFirstKey k s.in_flight = true ∧
      (∀ kv ∈ s.in_flight, k ≤ kv.1) ∧
      (step numObjects s e).expire_pos = k := by
  cases e with
  | push len => simp [step] at hch
  | setFiler n => simp [step] at hch
  | dispatch item len =>
    exfalso
    apply hch
    simp only [step]
    by_cases hc : 0 < len ∧ s.read_pos + len ≤ s.write_pos
    · rw [if_pos hc]
      by_cases hka : knownAction item.action <;> simp [hka]
    · rw [if_neg hc]
  | complete k =>
    cases hfind : mapFind k s.in_flight with
    | none => simp [step, hfind] at hch
    | some item =>
      by_cases hfirst : isFirstKey k s.in_flight = true
      · refine ⟨k, item, rfl, hfind, hfirst, ?_, ?_⟩
        · obtain ⟨v, t, hshape⟩ := isFirstKey_shape hfirst
          intro kv hkv
          rw [hshape] at hkv
          rcases List.mem_cons.mp hkv with heq | hmem
          · rw [heq]
          · have hsort := hinv.1
            rw [hshape] at hsort
            have := (List.pairwise_cons.mp hsort).1 kv hmem
            omega
        · simp [step, hfind, hfirst]
      · exfalso
        apply hch
        simp [step, hfind, hfirst]

/-- Total op cost of the intents currently in flight. -/
def inFlightOps (fmpo : Nat) (numObjects : FileLayout → Nat → Nat)
    (l : List (Nat × PurgeItem)) : Nat :=
  (l.map (fun kv => calculate_ops fmpo numObjects kv.2)).sum

/-- The cost the claim prescribes for a `PURGE_FILE` intent. -/
def purgeFileCostClaim (fmpo : Nat) (numObjects : FileLayout → Nat → Nat)
    (item : PurgeItem) : Nat :=
  min (numObjects item.layout item.size) fmpo + 1 + item.old_pools.length

/-- The cost the claim prescribes for a `TRUNCATE_FILE` intent. -/
def truncateCostClaim (fmpo : Nat) (numObjects : FileLayout → Nat → Nat)
    (item : PurgeItem) : Nat :=
  min (numObjects item.layout item.size) fmpo + 1

/-- A 4 MiB-object, stripe-count-1 layout in pool 3 with no namespace (scenario S1). -/
def layoutS1 : FileLayout :=
  { stripe_unit := 4194304, stripe_count := 1, object_size := 4194304, pool_id := 3,
    pool_ns := [] }

/-- A small layout (4-byte objects) used to keep concrete runs cheap to evaluate. -/
def layoutSmall : FileLayout :=
  { stripe_unit := 4, stripe_count := 1, object_size := 4, pool_id := 3, pool_ns := [] }

def snapc0 : SnapContext := { seq := 0, snaps := [] }

/-- Scenario S1 intent: purge an 8 MiB file. -/
def itemS1 : PurgeItem :=
  { action := PURGE_FILE, ino := 256, size := 8388608, layout := layoutS1,
    old_pools := [], snapc := snapc0, fragtree := [] }

/-- Scenario S2 intent: truncate a 12 MiB file. -/
def itemS2 : PurgeItem :=
  { action := TRUNCATE_FILE, ino := 512, size := 12582912, layout := layoutS1,
    old_pools := [], snapc := snapc0, fragtree := [] }

/-- A zero-size `PURGE_FILE` intent with an empty pool namespace. -/
def itemZero : PurgeItem :=
  { action := PURGE_FILE, ino := 256, size := 0, layout := layoutSmall,
    old_pools := [], snapc := snapc0, fragtree := [] }

/-- An intent carrying an action the dispatch switch does not recognize. -/
def itemBad : PurgeItem :=
  { action := ACTION_NONE, ino := 77, size := 0, layout := layoutSmall,
    old_pools := [], snapc := snapc0, fragtree := [] }

def itemA : PurgeItem :=
  { action := PURGE_FILE, ino := 1, size := 8, layout := layoutSmall,
    old_pools := [], snapc := snapc0, fragtree := [] }

def itemB : PurgeItem :=
  { action := PURGE_FILE, ino := 2, size := 8, layout := layoutSmall,
    old_pools := [], snapc := snapc0, fragtree := [] }

def itemC : PurgeItem :=
  { action := PURGE_FILE, ino := 3, size := 8, layout := layoutSmall,
    old_pools := [], snapc := snapc0, fragtree := [] }

/-- Scenario S4 up to the dispatches: A, B, C in flight at expire_to 100, 200, 300. -/
def histS4Dispatched : List PQEvent :=
  [PQEvent.push 100, PQEvent.push 100, PQEvent.push 100,
   PQEvent.dispatch itemA 100, PQEvent.dispatch itemB 100, PQEvent.dispatch itemC 100]

/-- Scenario S4: complete B, then C, then A. -/
def histS4 : List PQEvent :=
  histS4Dispatched ++ [PQEvent.complete 200, PQEvent.complete 300, PQEvent.complete 100]

/-- C1: for every history of push, dispatch, and completion events, `expire_pos` is at
most every in-flight `expire_to` key (hence at most the smallest) when the map is
non-empty, and at most `read_pos` when the map is empty; and any step that changes
`expire_pos` is an `execute_item_complete` for an intent that is present and holds the
smallest key, setting `expire_pos` to exactly the `expire_to` of that intent. -/
theorem claim1_expire_pos_invariant (numObjects : FileLayout → Nat → Nat)
    (wpos rpos epos fmpo : Nat) (h0 : epos ≤ rpos) (hist : List PQEvent) :
    (∀ kv ∈ (reach numObjects wpos rpos epos fmpo hist).in_flight,
        (reach numObjects wpos rpos epos fmpo hist).expire_pos ≤ kv.1) ∧
    ((reach numObjects wpos rpos epos fmpo hist).in_flight = [] →
        (reach numObjects wpos rpos epos fmpo hist).expire_pos ≤
          (reach numObjects wpos rpos epos fmpo hist).read_pos) ∧
    (∀ e : PQEvent,
        (step numObjects (reach numObjects wpos rpos epos fmpo hist) e).expire_pos ≠
          (reach numObjects wpos rpos epos fmpo hist).expire_pos →
        ∃ k item, e = PQEvent.complete k ∧
          mapFind k (reach numObjects wpos rpos epos fmpo hist).in_flight = some item ∧
          isFirstKey k (reach numObjects wpos rpos epos fmpo hist).in_flight = true ∧
          (∀ kv ∈ (reach numObjects wpos rpos epos fmpo hist).in_flight, k ≤ kv.1) ∧
          (step numObjects (reach numObjects wpos rpos epos fmpo hist) e).expire_pos = k) := by
  have hinv : InvS (reach numObjects wpos rpos epos fmpo hist) :=
    run_preserves_inv numObjects _ hist (initState_inv wpos rpos epos fmpo h0)
  exact ⟨hinv.2.2.1, fun _ => hinv.2.2.2, fun e hch =>
    expire_change_shape numObjects _ e hinv hch⟩

theorem claim1_expire_pos_invariant_witness :
    (∀ kv ∈ (reach stripeCount 0 0 0 10 histS4Dispatched).in_flight,
        (reach stripeCount 0 0 0 10 histS4Dispatched).expire_pos ≤ kv.1) ∧
    ((reach stripeCount 0 0 0 10 histS4Dispatched).in_flight = [] →
        (reach stripeCount 0 0 0 10 histS4Dispatched).expire_pos ≤
          (reach stripeCount 0 0 0 10 histS4Dispatched).read_pos) ∧
    (∀ e : PQEvent,
        (step stripeCount (reach stripeCount 0 0 0 10 histS4Dispatched) e).expire_pos ≠
          (reach stripeCount 0 0 0 10 histS4Dispatched).expire_pos →
        ∃ k item, e = PQEvent.complete k ∧
          mapFind k (reach stripeCount 0 0 0 10 histS4Dispatched).in_flight = some item ∧
          isFirstKey k (reach stripeCount 0 0 0 10 histS4Dispatched).in_flight = true ∧
          (∀ kv ∈ (reach stripeCount 0 0 0 10 histS4Dispatched).in_flight, k ≤ kv.1) ∧
          (step stripeCount (reach stripeCount 0 0 0 10 histS4Dispatched) e).expire_pos
            = k) :=
  claim1_expire_pos_invariant stripeCount 0 0 0 10 (by decide) histS4Dispatched

/-- C2 counterexample: in scenario S4 (complete B, then C, then A), the final
`expire_pos` is 100 — the `expire_to` of A itself — not 300 as the claim states, because
`execute_item_complete` expires only up to the offset of the completing intent. -/
theorem claim2_counterexample :
    (reach stripeCount 0 0 0 10 histS4).in_flight = [] ∧
    (reach stripeCount 0 0 0 10 histS4).expire_pos = 100 ∧
    ¬ (reach stripeCount 0 0 0 10 histS4).expire_pos = 300 := by
  decide

/-- C2 as amended: completing B then C leaves `expire_pos` unchanged, and completing A
sets it to 100, the `expire_to` of A (not 300), with the map empty afterwards. -/
theorem claim2_amended_s4 :
    (reach stripeCount 0 0 0 10 (histS4Dispatched ++ [PQEvent.complete 200])).expire_pos
      = 0 ∧
    (reach stripeCount 0 0 0 10
      (histS4Dispatched ++ [PQEvent.complete 200, PQEvent.complete 300])).expire_pos
      = 0 ∧
    (reach stripeCount 0 0 0 10 histS4).expire_pos = 100 ∧
    (reach stripeCount 0 0 0 10 histS4).in_flight = [] := by
  decide

/-- C3 counterexample: dispatching a single intent whose action is unknown leaves the
in-flight map empty (the invalid-item branch erases the entry) but never subtracts the
cost that dispatch added, so `ops_in_flight` is 2 while the map cost sum is 0. -/
theorem claim3_counterexample :
    (reach stripeCount 0 0 0 10 [PQEvent.push 10, PQEvent.dispatch itemBad 10]).in_flight
      = [] ∧
    (reach stripeCount 0 0 0 10
      [PQEvent.push 10, PQEvent.dispatch itemBad 10]).ops_in_flight = 2 ∧
    ¬ (reach stripeCount 0 0 0 10
        [PQEvent.push 10, PQEvent.dispatch itemBad 10]).ops_in_flight =
      inFlightOps 10 stripeCount
        (reach stripeCount 0 0 0 10
          [PQEvent.push 10, PQEvent.dispatch itemBad 10]).in_flight := by
  decide

/-- An event the amended C3 invariant ranges over: no unknown-action dispatch (which
leaks its cost) and no change to `filer_max_purge_ops` (completion re-prices the intent
with the current value). -/
def GoodEvent : PQEvent → Prop
  | .dispatch item _ => knownAction item.action = true
  | .setFiler _ => False
  | _ => True

theorem inFlightOps_append (fmpo : Nat) (numObjects : FileLayout → Nat → Nat)
    (l : List (Nat × PurgeItem)) (kv : Nat × PurgeItem) :
    inFlightOps fmpo numObjects (l ++ [kv]) =
      inFlightOps fmpo numObjects l + calculate_ops fmpo numObjects kv.2 := by
  unfold inFlightOps
  rw [List.map_append, List.sum_append]
  simp

theorem inFlightOps_erase (fmpo : Nat) (numObjects : FileLayout → Nat → Nat) :
    ∀ l : List (Nat × PurgeItem), l.Pairwise (fun a b => a.1 < b.1) →
      ∀ k item, mapFind k l = some item →
        inFlightOps fmpo numObjects (mapErase k l) + calculate_ops fmpo numObjects item =
          inFlightOps fmpo numObjects l := by
  intro l
  induction l with
  | nil => intro _ k item h; simp [mapFind] at h
  | cons hd t ih =>
    intro hsort k item hfind
    obtain ⟨k0, v0⟩ := hd
    obtain ⟨hhead, htail⟩ := List.pairwise_cons.mp hsort
    simp only [mapFind] at hfind
    by_cases hk : k0 = k
    · rw [if_pos hk] at hfind
      have hv0 : v0 = item := by exact Option.some.inj hfind
      subst hk hv0
      have herase : mapErase k0 ((k0, v0) :: t) = t := by
        unfold mapErase
        rw [List.filter_cons]
        rw [if_neg (by simp : ¬ ((fun kv : Nat × PurgeItem => decide (kv.1 ≠ k0)) (k0, v0) = true))]
        rw [List.filter_eq_self]
        intro kv hkv
        have := hhead kv hkv
        simp only [ne_eq, decide_eq_true_eq]
        omega
      rw [herase]
      unfold inFlightOps
      simp [Nat.add_comm]
    · rw [if_neg hk] at hfind
      have herase : mapErase k ((k0, v0) :: t) = (k0, v0) :: mapErase k t := by
        unfold mapErase
        rw [List.filter_cons]
        rw [if_pos (by simpa using hk : (fun kv : Nat × PurgeItem => decide (kv.1 ≠ k)) (k0, v0) = true)]
      rw [herase]
      unfold inFlightOps at *
      simp only [List.map_cons, List.sum_cons]
      have := ih htail k item hfind
      omega

theorem step_preserves_ops (numObjects : FileLayout → Nat → Nat) (s : PQState)
    (e : PQEvent) (hinv : InvS s)
    (hops : s.ops_in_flight =
      inFlightOps s.conf_filer_max_purge_ops numObjects s.in_flight)
    (hgood : GoodEvent e) :
    (step numObjects s e).ops_in_flight =
      inFlightOps (step numObjects s e).conf_filer_max_purge_ops numObjects
        (step numObjects s e).in_flight ∧
    (step numObjects s e).conf_filer_max_purge_ops = s.conf_filer_max_purge_ops := by
  cases e with
  | push len => exact ⟨hops, by trivial⟩
  | setFiler n => exact absurd hgood (by simp [GoodEvent])
  | dispatch item len =>
    have hka : knownAction item.action = true := hgood
    by_cases hc : 0 < len ∧ s.read_pos + len ≤ s.write_pos
    · have hlt : ∀ kv ∈ s.in_flight, kv.1 < s.read_pos + len := by
        intro kv hkv
        have := hinv.2.1 kv hkv
        omega
      have hins : mapInsert (s.read_pos + len) item s.in_flight =
          s.in_flight ++ [(s.read_pos + len, item)] :=
        mapInsert_of_lt _ _ _ hlt
      simp only [step, if_pos hc, hka, if_true, hins]
      refine ⟨?_, by trivial⟩
      rw [inFlightOps_append]
      simp [hops]
    · simp only [step, if_neg hc]
      exact ⟨hops, by trivial⟩
  | complete k =>
    cases hfind : mapFind k s.in_flight with
    | none =>
      simp only [step, hfind]
      exact ⟨hops, by trivial⟩
    | some item =>
      have hsum := inFlightOps_erase s.conf_filer_max_purge_ops numObjects
        s.in_flight hinv.1 k item hfind
      by_cases hfirst : isFirstKey k s.in_flight = true
      · simp only [step, hfind, hfirst, if_true]
        refine ⟨?_, by trivial⟩
        omega
      · simp only [step, hfind, hfirst, if_false, Bool.false_eq_true]
        refine ⟨?_, by trivial⟩
        omega

/-- C3 as amended: for histories in which every dispatched intent has a recognized
action and the `filer_max_purge_ops` configuration is not changed, `ops_in_flight`
equals the sum of the op costs of the intents in the in-flight map. -/
theorem claim3_amended_ops_accounting (numObjects : FileLayout → Nat → Nat)
    (wpos rpos epos fmpo : Nat) (h0 : epos ≤ rpos) (hist : List PQEvent)
    (hgood : ∀ e ∈ hist, GoodEvent e) :
    (reach numObjects wpos rpos epos fmpo hist).ops_in_flight =
      inFlightOps fmpo numObjects (reach numObjects wpos rpos epos fmpo hist).in_flight := by
  suffices h : ∀ (hist2 : List PQEvent) (s : PQState), InvS s →
      (∀ e ∈ hist2, GoodEvent e) →
      s.ops_in_flight = inFlightOps s.conf_filer_max_purge_ops numObjects s.in_flight →
      (run numObjects s hist2).ops_in_flight =
        inFlightOps (run numObjects s hist2).conf_filer_max_purge_ops numObjects
          (run numObjects s hist2).in_flight ∧
      (run numObjects s hist2).conf_filer_max_purge_ops = s.conf_filer_max_purge_ops by
    have hres := h hist (initState wpos rpos epos fmpo)
      (initState_inv wpos rpos epos fmpo h0) hgood (by simp [initState, inFlightOps])
    rw [reach, hres.1, hres.2]
    rfl
  intro hist2
  induction hist2 with
  | nil => intro s _ _ hops; exact ⟨hops, rfl⟩
  | cons e t ih =>
    intro s hinv hgood2 hops
    have hstep := step_preserves_ops numObjects s e hinv hops (hgood2 e (by simp))
    have hinvs := step_preserves_inv numObjects s e hinv
    have hres := ih (step numObjects s e) hinvs
      (fun e2 he2 => hgood2 e2 (by simp [he2])) hstep.1
    refine ⟨hres.1, ?_⟩
    show (run numObjects (step numObjects s e) t).conf_filer_max_purge_ops =
      s.conf_filer_max_purge_ops
    rw [hres.2, hstep.2]

theorem claim3_amended_ops_accounting_witness :
    (reach stripeCount 0 0 0 10 histS4Dispatched).ops_in_flight =
      inFlightOps 10 stripeCount
        (reach stripeCount 0 0 0 10 histS4Dispatched).in_flight :=
  claim3_amended_ops_accounting stripeCount 0 0 0 10 (by decide) histS4Dispatched
    (by intro e he; fin_cases he <;> simp [GoodEvent, knownAction, itemA, itemB, itemC,
      PURGE_FILE, PURGE_DIR, TRUNCATE_FILE])

/-- C4: `can_consume` returns exactly what the ordered rules of the spec prescribe, for all
values of `ops_in_flight`, `max_purge_ops`, the in-flight map size, and
`mds_max_purge_files`. -/
theorem claim4_can_consume_rules (ops_in_flight max_purge_ops in_flight_size
    mds_max_purge_files : Nat) :
    can_consume ops_in_flight max_purge_ops in_flight_size mds_max_purge_files =
      canConsumeSpec ops_in_flight max_purge_ops in_flight_size mds_max_purge_files := by
  unfold can_consume canConsumeSpec
  split_ifs <;> first | rfl | omega

/-- C5 counterexample: for a zero-size `PURGE_FILE` intent, `_calculate_ops` substitutes
1 for the stripe count (which is 0 for an empty file), so the cost is 2, not the
claimed `min(stripe_count, cap) + 1 + |old_pools| = 1`. -/
theorem claim5_counterexample :
    stripeCount itemZero.layout itemZero.size = 0 ∧
    calculate_ops 10 stripeCount itemZero = 2 ∧
    purgeFileCostClaim 10 stripeCount itemZero = 1 ∧
    ¬ calculate_ops 10 stripeCount itemZero = purgeFileCostClaim 10 stripeCount itemZero := by
  decide

/-- C5 as amended: for intents of positive size the claimed formulas hold exactly
(`min(stripe_count, cap) + 1 + |old_pools|` for `PURGE_FILE`, without the old-pools term
for `TRUNCATE_FILE`); for zero-size intents the code prices the stripe ops as
`min(1, cap)` instead of `min(stripe_count, cap)`. -/
theorem claim5_calculate_ops (fmpo : Nat) (numObjects : FileLayout → Nat → Nat)
    (item : PurgeItem) :
    (item.action = PURGE_FILE → 0 < item.size →
      calculate_ops fmpo numObjects item = purgeFileCostClaim fmpo numObjects item) ∧
    (item.action = TRUNCATE_FILE → 0 < item.size →
      calculate_ops fmpo numObjects item = truncateCostClaim fmpo numObjects item) ∧
    (item.action = PURGE_FILE → item.size = 0 →
      calculate_ops fmpo numObjects item = min 1 fmpo + 1 + item.old_pools.length) ∧
    (item.action = TRUNCATE_FILE → item.size = 0 →
      calculate_ops fmpo numObjects item = min 1 fmpo + 1) := by
  refine ⟨?_, ?_, ?_, ?_⟩ <;> intro ha hs <;>
    simp [calculate_ops, purgeFileCostClaim, truncateCostClaim, ha, hs,
      PURGE_FILE, PURGE_DIR, TRUNCATE_FILE]

theorem claim5_calculate_ops_witness :
    calculate_ops 10 stripeCount itemS1 = purgeFileCostClaim 10 stripeCount itemS1 ∧
    calculate_ops 10 stripeCount itemS2 = truncateCostClaim 10 stripeCount itemS2 :=
  ⟨(claim5_calculate_ops 10 stripeCount itemS1).1 rfl (by decide),
   (claim5_calculate_ops 10 stripeCount itemS2).2.1 rfl (by decide)⟩

/-- C6 counterexample: for a `PURGE_FILE` intent with zero stripe objects (size 0) and an
empty pool namespace, the code does issue the backtrace remove (the claim says exactly
this case is skipped); the code instead skips when a purge was issued (size > 0) and the
namespace is empty. -/
theorem claim6_counterexample :
    stripeCount itemZero.layout itemZero.size = 0 ∧
    itemZero.layout.pool_ns = [] ∧
    backtrace_removed itemZero = true ∧
    backtraceRemovedClaim stripeCount itemZero = false := by
  decide

/-- C6 as amended: the `PURGE_FILE` branch issues the backtrace remove unless the purge
covered a positive number of stripe objects (size > 0) and the pool namespace is empty —
in exactly that case it is skipped, the purge range having already covered object 0. -/
theorem claim6_backtrace_rule (item : PurgeItem) :
    backtrace_removed item = true ↔ ¬ (0 < item.size ∧ item.layout.pool_ns = []) := by
  unfold backtrace_removed purge_range_subs
  by_cases h : 0 < item.size <;> by_cases h2 : item.layout.pool_ns = [] <;>
    simp [h, h2]

/-- C10: for every intent whose action is `PURGE_FILE`, `PURGE_DIR`, or `TRUNCATE_FILE`,
`_execute_item` registers at least one gather sub before activation, so the
`assert(gather.has_subs())` after the action branches never fails. -/
theorem claim10_gather_has_subs (numObjects : FileLayout → Nat → Nat) (item : PurgeItem)
    (h : item.action = PURGE_FILE ∨ item.action = PURGE_DIR ∨
      item.action = TRUNCATE_FILE) :
    1 ≤ gather_sub_count numObjects item := by
  rcases h with h | h | h
  · by_cases hs : 0 < item.size
    · simp [gather_sub_count, h, purge_range_subs, hs]
      omega
    · have hz : item.size = 0 := by omega
      simp [gather_sub_count, h, backtrace_removed, purge_range_subs, hz]
  · simp [gather_sub_count, h, PURGE_FILE, PURGE_DIR]
  · simp [gather_sub_count, h, PURGE_FILE, PURGE_DIR, TRUNCATE_FILE]

theorem claim10_gather_has_subs_witness :
    1 ≤ gather_sub_count stripeCount itemZero :=
  claim10_gather_has_subs stripeCount itemZero (Or.inl rfl)

/-! ## The intent codec

`PurgeItem::encode` / `PurgeItem::decode` over byte lists (each entry a byte value).
`ENCODE_START(v, compat, bl)` emits a one-byte struct version, a one-byte compat
version, and a little-endian u32 payload length that `ENCODE_FINISH` fills in;
`DECODE_START(v, p)` rejects records whose compat version exceeds the supported
version and bounds field reads to the recorded length, which `DECODE_FINISH` skips
to.  Integers are little-endian; containers are length-prefixed. -/

def encU8 (n : Nat) : List Nat := [n % 256]

def encU32 (n : Nat) : List Nat :=
  [n % 256, n / 256 % 256, n / 65536 % 256, n / 16777216 % 256]

def encU64 (n : Nat) : List Nat :=
  encU32 (n % 4294967296) ++ encU32 (n / 4294967296)

/-- Twos-complement little-endian encoding of a signed 64-bit value. -/
def encI64 (z : Int) : List Nat :=
  encU64 (z % 18446744073709551616).toNat

/-- A length-prefixed byte string (the encoding of a pool namespace). -/
def encBytes (l : List Nat) : List Nat :=
  encU32 l.length ++ l

/-- A length-prefixed sequence of encoded elements. -/
def encSeq (encE : α → List Nat) (l : List α) : List Nat :=
  encU32 l.length ++ (l.map encE).flatten

/-- A versioned block: struct version, compat version, payload length, payload. -/
def encBlock (v compat : Nat) (payload : List Nat) : List Nat :=
  encU8 v ++ encU8 compat ++ encU32 payload.length ++ payload

def decU8 : List Nat → Option (Nat × List Nat)
  | [] => none
  | b :: r => some (b, r)

def decU32 : List Nat → Option (Nat × List Nat)
  | b0 :: b1 :: b2 :: b3 :: r => some (b0 + 256 * b1 + 65536 * b2 + 16777216 * b3, r)
  | _ => none

def decU64 (bs : List Nat) : Option (Nat × List Nat) :=
  match decU32 bs with
  | none => none
  | some (lo, r) =>
    match decU32 r with
    | none => none
    | some (hi, r2) => some (lo + 4294967296 * hi, r2)

/-- Reinterpret an unsigned 64-bit value as the signed value it encodes. -/
def int64OfUInt64 (v : Nat) : Int :=
  if v < 9223372036854775808 then (v : Int) else (v : Int) - 18446744073709551616

def decI64 (bs : List Nat) : Option (Int × List Nat) :=
  match decU64 bs with
  | none => none
  | some (v, r) => some (int64OfUInt64 v, r)

def decTake : Nat → List Nat → Option (List Nat × List Nat)
  | 0, r => some ([], r)
  | _ + 1, [] => none
  | n + 1, b :: r =>
    match decTake n r with
    | none => none
    | some (bs, r2) => some (b :: bs, r2)

def decBytes (bs : List Nat) : Option (List Nat × List Nat) :=
  match decU32 bs with
  | none => none
  | some (n, r) => decTake n r

def decCount (decE : List Nat → Option (α × List Nat)) :
    Nat → List Nat → Option (List α × List Nat)
  | 0, r => some ([], r)
  | n + 1, r =>
    match decE r with
    | none => none
    | some (a, r2) =>
      match decCount decE n r2 with
      | none => none
      | some (as, r3) => some (a :: as, r3)

def decSeq (decE : List Nat → Option (α × List Nat)) (bs : List Nat) :
    Option (List α × List Nat) :=
  match decU32 bs with
  | none => none
  | some (n, r) => decCount decE n r

/-- Semantics of `DECODE_START(v, p)` and `DECODE_FINISH(p)`: read the version pair, reject a compat
version newer than `v` as a corrupt record, bound the payload parse to the recorded
length, and resume after the recorded length. -/
def decBlock (v : Nat) (inner : List Nat → Option (α × List Nat)) (bs : List Nat) :
    Option (α × List Nat) :=
  match decU8 bs with
  | none => none
  | some (sv, r1) =>
    match decU8 r1 with
    | none => none
    | some (sc, r2) =>
      if v < sc then none
      else
        match decU32 r2 with
        | none => none
        | some (len, r3) =>
          if len ≤ r3.length then
            match inner (r3.take len) with
            | none => none
            | some (a, _) => some (a, r3.drop len)
          else none

theorem decU8_enc (n : Nat) (h : n < 256) (r : List Nat) :
    decU8 (encU8 n ++ r) = some (n, r) := by
  simp [encU8, decU8, Nat.mod_eq_of_lt h]

theorem decU32_enc (n : Nat) (h : n < 4294967296) (r : List Nat) :
    decU32 (encU32 n ++ r) = some (n, r) := by
  simp only [encU32, List.cons_append, List.nil_append, decU32]
  have hval : n % 256 + 256 * (n / 256 % 256) + 65536 * (n / 65536 % 256) +
      16777216 * (n / 16777216 % 256) = n := by omega
  rw [hval]

theorem decU64_enc (n : Nat) (h : n < 18446744073709551616) (r : List Nat) :
    decU64 (encU64 n ++ r) = some (n, r) := by
  unfold encU64 decU64
  rw [List.append_assoc]
  rw [decU32_enc _ (by omega)]
  dsimp only
  rw [decU32_enc _ (by omega)]
  dsimp only
  have hval : n % 4294967296 + 4294967296 * (n / 4294967296) = n := by omega
  rw [hval]

theorem decI64_enc (z : Int) (h1 : -9223372036854775808 ≤ z)
    (h2 : z < 9223372036854775808) (r : List Nat) :
    decI64 (encI64 z ++ r) = some (z, r) := by
  unfold encI64 decI64
  rw [decU64_enc _ (by omega)]
  dsimp only
  have hval : int64OfUInt64 (z % 18446744073709551616).toNat = z := by
    unfold int64OfUInt64
    split_ifs with h <;> omega
  rw [hval]

theorem decTake_enc (l r : List Nat) : decTake l.length (l ++ r) = some (l, r) := by
  induction l with
  | nil => rfl
  | cons b t ih => simp [decTake, ih]

theorem decBytes_enc (l : List Nat) (h : l.length < 4294967296) (r : List Nat) :
    decBytes (encBytes l ++ r) = some (l, r) := by
  unfold encBytes decBytes
  rw [List.append_assoc, decU32_enc _ h]
  exact decTake_enc l r

theorem decCount_enc (decE : List Nat → Option (α × List Nat)) (encE : α → List Nat)
    (l : List α) (r : List Nat)
    (h : ∀ a ∈ l, ∀ r2, decE (encE a ++ r2) = some (a, r2)) :
    decCount decE l.length ((l.map encE).flatten ++ r) = some (l, r) := by
  induction l with
  | nil => rfl
  | cons a t ih =>
    simp only [List.map_cons, List.flatten_cons, List.length_cons, List.append_assoc]
    simp only [decCount]
    rw [h a (by simp) _]
    dsimp only
    rw [ih (fun a2 ha2 r2 => h a2 (by simp [ha2]) r2)]

theorem decSeq_enc (decE : List Nat → Option (α × List Nat)) (encE : α → List Nat)
    (l : List α) (hlen : l.length < 4294967296) (r : List Nat)
    (h : ∀ a ∈ l, ∀ r2, decE (encE a ++ r2) = some (a, r2)) :
    decSeq decE (encSeq encE l ++ r) = some (l, r) := by
  unfold encSeq decSeq
  rw [List.append_assoc, decU32_enc _ hlen]
  exact decCount_enc decE encE l r h

theorem decBlock_enc (v compat : Nat) (inner : List Nat → Option (α × List Nat))
    (payload : List Nat) (a : α) (pr r : List Nat)
    (hcv : compat ≤ v) (hv : v < 256) (hc : compat < 256)
    (hlen : payload.length < 4294967296)
    (hinner : inner payload = some (a, pr)) :
    decBlock v inner (encBlock v compat payload ++ r) = some (a, r) := by
  unfold encBlock decBlock
  rw [List.append_assoc, List.append_assoc, List.append_assoc]
  rw [decU8_enc _ hv]
  dsimp only
  rw [decU8_enc _ hc]
  dsimp only
  rw [if_neg (by omega)]
  rw [decU32_enc _ hlen]
  dsimp only
  rw [if_pos (by simp)]
  rw [List.take_left, List.drop_left]
  rw [hinner]

/-- Modelled from the spec: the featured v2 encoding of `file_layout_t` (declared outside
this repository), as §4.1 frames it — a versioned block holding stripe unit, stripe
count, object size (u32 each), pool id (i64), and the length-prefixed pool namespace. -/
def FileLayout.encodeBytes (l : FileLayout) : List Nat :=
  encBlock 2 1 (encU32 l.stripe_unit ++ encU32 l.stripe_count ++ encU32 l.object_size ++
    encI64 l.pool_id ++ encBytes l.pool_ns)

def decLayoutPayload (bs : List Nat) : Option (FileLayout × List Nat) :=
  match decU32 bs with
  | none => none
  | some (su, r1) =>
    match decU32 r1 with
    | none => none
    | some (sc, r2) =>
      match decU32 r2 with
      | none => none
      | some (os, r3) =>
        match decI64 r3 with
        | none => none
        | some (pid, r4) =>
          match decBytes r4 with
          | none => none
          | some (ns, r5) =>
            some ({ stripe_unit := su, stripe_count := sc, object_size := os,
                    pool_id := pid, pool_ns := ns }, r5)

def FileLayout.decodeBytes : List Nat → Option (FileLayout × List Nat) :=
  decBlock 2 decLayoutPayload

/-- Modelled from the spec: `SnapContext` encoding (declared outside this repository) —
the sequence number followed by the length-prefixed snap list (§4.1: snapc (seq +
list)). -/
def SnapContext.encodeBytes (s : SnapContext) : List Nat :=
  encU64 s.seq ++ encSeq encU64 s.snaps

def SnapContext.decodeBytes (bs : List Nat) : Option (SnapContext × List Nat) :=
  match decU64 bs with
  | none => none
  | some (sq, r1) =>
    match decSeq decU64 r1 with
    | none => none
    | some (sn, r2) => some ({ seq := sq, snaps := sn }, r2)

/-- Source `PurgeItem::encode`: `ENCODE_START(1, 1, bl)`, then action (u8), ino (u64), size
(u64), layout (featured), old_pools, snapc, fragtree (modelled from the spec as the
length-prefixed packed frag list, fragtree_t being declared outside this repository),
then `ENCODE_FINISH`. -/
def PurgeItem.encode (item : PurgeItem) : List Nat :=
  encBlock 1 1 (encU8 item.action ++ encU64 item.ino ++ encU64 item.size ++
    FileLayout.encodeBytes item.layout ++ encSeq encI64 item.old_pools ++
    SnapContext.encodeBytes item.snapc ++ encSeq encU32 item.fragtree)

def decItemPayload (bs : List Nat) : Option (PurgeItem × List Nat) :=
  match decU8 bs with
  | none => none
  | some (a, r1) =>
    match decU64 r1 with
    | none => none
    | some (ino, r2) =>
      match decU64 r2 with
      | none => none
      | some (size, r3) =>
        match FileLayout.decodeBytes r3 with
        | none => none
        | some (lay, r4) =>
          match decSeq decI64 r4 with
          | none => none
          | some (pools, r5) =>
            match SnapContext.decodeBytes r5 with
            | none => none
            | some (sc, r6) =>
              match decSeq decU32 r6 with
              | none => none
              | some (ft, r7) =>
                some ({ action := a, ino := ino, size := size, layout := lay,
                        old_pools := pools, snapc := sc, fragtree := ft }, r7)

/-- Source `PurgeItem::decode`: `DECODE_START(1, p)`, the fields in order, `DECODE_FINISH(p)`. -/
def PurgeItem.decode : List Nat → Option (PurgeItem × List Nat) :=
  decBlock 1 decItemPayload

/-- A layout whose fields fit the encoded widths (u32 dimensions, i64 pool, u32-prefixed
namespace kept comfortably below the prefix range). -/
def WFLayout (l : FileLayout) : Prop :=
  l.stripe_unit < 4294967296 ∧ l.stripe_count < 4294967296 ∧
  l.object_size < 4294967296 ∧
  -9223372036854775808 ≤ l.pool_id ∧ l.pool_id < 9223372036854775808 ∧
  l.pool_ns.length < 67108864

/-- A well-formed intent: every field fits the width the current encoder version gives
it. -/
def WFItem (item : PurgeItem) : Prop :=
  item.action < 256 ∧ item.ino < 18446744073709551616 ∧
  item.size < 18446744073709551616 ∧
  WFLayout item.layout ∧
  item.old_pools.length < 67108864 ∧
  (∀ p ∈ item.old_pools, -9223372036854775808 ≤ p ∧ p < 9223372036854775808) ∧
  item.snapc.seq < 18446744073709551616 ∧ item.snapc.snaps.length < 67108864 ∧
  (∀ x ∈ item.snapc.snaps, x < 18446744073709551616) ∧
  item.fragtree.length < 67108864 ∧ (∀ f ∈ item.fragtree, f < 4294967296)

theorem length_encBlock (v c : Nat) (p : List Nat) :
    (encBlock v c p).length = 6 + p.length := by
  simp [encBlock, encU8, encU32]
  omega

theorem length_flatten_const (encE : α → List Nat) (c : Nat)
    (h : ∀ a, (encE a).length = c) :
    ∀ l : List α, ((l.map encE).flatten).length = c * l.length := by
  intro l
  induction l with
  | nil => simp
  | cons a t ih =>
    simp only [List.map_cons, List.flatten_cons, List.length_append, h a, ih,
      List.length_cons]
    rw [Nat.mul_succ]
    omega

theorem length_encSeq (encE : α → List Nat) (c : Nat) (h : ∀ a, (encE a).length = c)
    (l : List α) : (encSeq encE l).length = 4 + c * l.length := by
  simp [encSeq, encU32, length_flatten_const encE c h l]
  omega

theorem length_encLayout (l : FileLayout) :
    (FileLayout.encodeBytes l).length = 30 + l.pool_ns.length := by
  rw [FileLayout.encodeBytes, length_encBlock]
  simp [encBytes, encU32, encI64, encU64]
  omega

theorem length_encSnapc (s : SnapContext) :
    (SnapContext.encodeBytes s).length = 12 + 8 * s.snaps.length := by
  rw [SnapContext.encodeBytes]
  rw [List.length_append, length_encSeq encU64 8 (fun a => rfl)]
  simp [encU64, encU32]
  omega

theorem layout_roundtrip (l : FileLayout) (h : WFLayout l) (r : List Nat) :
    FileLayout.decodeBytes (FileLayout.encodeBytes l ++ r) = some (l, r) := by
  obtain ⟨h1, h2, h3, h4, h5, h6⟩ := h
  obtain ⟨su, sc, os, pid, ns⟩ := l
  rw [FileLayout.encodeBytes, FileLayout.decodeBytes]
  apply decBlock_enc 2 1 decLayoutPayload _ _ [] r (by omega) (by omega) (by omega)
  · simp only [List.length_append, encBytes, encU32, encI64, encU64, List.length_cons,
      List.length_nil] at *
    simp [encU32]
    omega
  · rw [decLayoutPayload]
    simp only [List.append_assoc]
    rw [decU32_enc _ h1]
    dsimp only
    rw [decU32_enc _ h2]
    dsimp only
    rw [decU32_enc _ h3]
    dsimp only
    rw [decI64_enc _ h4 h5]
    dsimp only
    rw [(List.append_nil (encBytes ns)).symm]
    rw [decBytes_enc _ (by simp at h6 ⊢; omega)]

theorem snapc_roundtrip (s : SnapContext) (h1 : s.seq < 18446744073709551616)
    (h2 : s.snaps.length < 4294967296)
    (h3 : ∀ x ∈ s.snaps, x < 18446744073709551616) (r : List Nat) :
    SnapContext.decodeBytes (SnapContext.encodeBytes s ++ r) = some (s, r) := by
  obtain ⟨sq, sn⟩ := s
  rw [SnapContext.encodeBytes, SnapContext.decodeBytes]
  simp only [List.append_assoc]
  rw [decU64_enc _ h1]
  dsimp only
  rw [decSeq_enc decU64 encU64 _ (by simpa using h2) r
    (fun a ha r2 => decU64_enc a (h3 a (by simpa using ha)) r2)]

theorem item_roundtrip (item : PurgeItem) (h : WFItem item) (r : List Nat) :
    PurgeItem.decode (PurgeItem.encode item ++ r) = some (item, r) := by
  obtain ⟨ha, hino, hsize, hlay, hpools_len, hpools, hseq, hsnaps_len, hsnaps,
    hft_len, hft⟩ := h
  rw [PurgeItem.encode, PurgeItem.decode]
  apply decBlock_enc 1 1 decItemPayload _ _ [] r (by omega) (by omega) (by omega)
  · simp only [List.length_append, length_encLayout, length_encSnapc,
      length_encSeq encI64 8 (fun a => rfl), length_encSeq encU32 4 (fun a => rfl),
      encU8, encU64, encU32, List.length_cons, List.length_nil]
    have hns := hlay.2.2.2.2.2
    omega
  · rw [decItemPayload]
    simp only [List.append_assoc]
    rw [decU8_enc _ ha]
    dsimp only
    rw [decU64_enc _ hino]
    dsimp only
    rw [decU64_enc _ hsize]
    dsimp only
    rw [layout_roundtrip _ hlay]
    dsimp only
    rw [decSeq_enc decI64 encI64 _ (by omega) _
      (fun a hmem r2 => decI64_enc a (hpools a hmem).1 (hpools a hmem).2 r2)]
    dsimp only
    rw [snapc_roundtrip _ hseq (by omega) hsnaps]
    dsimp only
    rw [(List.append_nil (encSeq encU32 item.fragtree)).symm]
    rw [decSeq_enc decU32 encU32 _ (by omega) _
      (fun a hmem r2 => decU32_enc a (hft a hmem) r2)]

/-- C7: the intent codec round-trips — decoding the current-version encoding of any
well-formed `PurgeItem` returns exactly that item with no bytes left over, and every
valid encoding produced by the current version decodes and re-encodes to itself. -/
theorem claim7_codec_roundtrip (item : PurgeItem) (h : WFItem item) :
    PurgeItem.decode (PurgeItem.encode item) = some (item, []) ∧
    (∀ bs : List Nat, (∃ y, WFItem y ∧ PurgeItem.encode y = bs) →
      ∃ z, PurgeItem.decode bs = some (z, []) ∧ PurgeItem.encode z = bs) := by
  constructor
  · have hrt := item_roundtrip item h []
    rw [List.append_nil] at hrt
    exact hrt
  · rintro bs ⟨y, hy, rfl⟩
    refine ⟨y, ?_, rfl⟩
    have hrt := item_roundtrip y hy []
    rw [List.append_nil] at hrt
    exact hrt

theorem claim7_codec_roundtrip_witness :
    PurgeItem.decode (PurgeItem.encode itemS1) = some (itemS1, []) :=
  (claim7_codec_roundtrip itemS1 (by
    refine ⟨by decide, by decide, by decide, ?_, by decide, by decide, by decide,
      by decide, by decide, by decide, by decide⟩
    refine ⟨by decide, by decide, by decide, by decide, by decide, by decide⟩)).1

/-! ## The dynamic op-limit controller and the configuration-change handler -/

/-- Source `PurgeQueue::update_op_limit`: sum placement-group counts over the cluster-map
data pools, skipping pools absent from the object-store map (`pgNum dp = none`); divide
by the rank count and scale by `mds_max_purge_ops_per_pg` (a floating-point
configuration value, modelled as an exact rational, with the `uint64_t` cast as the
floor); clamp to `mds_max_purge_ops` only when that is configured non-zero. -/
def update_op_limit (pgNum : Int → Option Nat) (data_pools : List Int) (max_mds : Nat)
    (ops_per_pg : ℚ) (conf_max_purge_ops : Nat) : Nat :=
  let pg_count : Nat := data_pools.foldl (fun acc dp =>
    match pgNum dp with
    | none => acc
    | some n => acc + n) 0
  let base : Nat := (((pg_count : ℚ) / (max_mds : ℚ)) * ops_per_pg).floor.toNat
  if conf_max_purge_ops ≠ 0 then min base conf_max_purge_ops else base

/-- The op-limit rule as the claim words it: the total PGs across the data pools present
in the object-store map, divided by the rank count, times the per-PG multiplier; clamped
to `mds_max_purge_ops` if and only if that is non-zero. -/
def updateOpLimitClaim (pgNum : Int → Option Nat) (data_pools : List Int) (max_mds : Nat)
    (ops_per_pg : ℚ) (conf_max_purge_ops : Nat) : Nat :=
  let present := data_pools.filter (fun dp => (pgNum dp).isSome)
  let total : Nat := (present.map (fun dp => (pgNum dp).getD 0)).sum
  let base : Nat := (((total : ℚ) / (max_mds : ℚ)) * ops_per_pg).floor.toNat
  if conf_max_purge_ops = 0 then base else min base conf_max_purge_ops

theorem pg_fold_eq_filtered_sum (pgNum : Int → Option Nat) :
    ∀ (data_pools : List Int) (acc : Nat),
      data_pools.foldl (fun acc dp =>
        match pgNum dp with
        | none => acc
        | some n => acc + n) acc =
      acc + ((data_pools.filter (fun dp => (pgNum dp).isSome)).map
        (fun dp => (pgNum dp).getD 0)).sum := by
  intro data_pools
  induction data_pools with
  | nil => intro acc; simp
  | cons dp t ih =>
    intro acc
    cases hdp : pgNum dp with
    | none =>
      simp only [List.foldl_cons, hdp]
      rw [ih acc]
      rw [List.filter_cons, if_neg (by simp [hdp])]
    | some n =>
      simp only [List.foldl_cons, hdp]
      rw [ih (acc + n)]
      rw [List.filter_cons, if_pos (by simp [hdp])]
      simp [hdp]
      omega

/-- C8: `update_op_limit` computes exactly the claimed quantity — PGs summed over data
pools present in the object-store map (absent pools skipped), divided by the rank count,
scaled by the per-PG multiplier, and clamped to `mds_max_purge_ops` iff that is
configured non-zero. -/
theorem claim8_update_op_limit (pgNum : Int → Option Nat) (data_pools : List Int)
    (max_mds : Nat) (ops_per_pg : ℚ) (conf_max_purge_ops : Nat) :
    update_op_limit pgNum data_pools max_mds ops_per_pg conf_max_purge_ops =
      updateOpLimitClaim pgNum data_pools max_mds ops_per_pg conf_max_purge_ops := by
  unfold update_op_limit updateOpLimitClaim
  rw [pg_fold_eq_filtered_sum pgNum data_pools 0]
  simp only [Nat.zero_add]
  by_cases hc : conf_max_purge_ops = 0 <;> simp [hc]

/-- The configuration keys `handle_conf_change` inspects; everything else is `other`. -/
inductive ConfKey where
  | mds_max_purge_ops
  | mds_max_purge_ops_per_pg
  | mds_max_purge_files
  | other
  deriving DecidableEq, Repr, BEq

/-- Source `PurgeQueue::handle_conf_change` over the changed-key set and the emptiness of the
in-flight map: returns (op limit recomputed, wake-up queued).  The source tests the
PG-derived keys first and only `else if` the `mds_max_purge_files` key, queueing the
`_consume` wake-up only when the in-flight map is empty. -/
def handle_conf_change (changed : List ConfKey) (in_flight_empty : Bool) : Bool × Bool :=
  if changed.contains ConfKey.mds_max_purge_ops ||
      changed.contains ConfKey.mds_max_purge_ops_per_pg then
    (true, false)
  else if changed.contains ConfKey.mds_max_purge_files then
    (false, in_flight_empty)
  else
    (false, false)

/-- C9 counterexample: a notification changing both `mds_max_purge_ops` and
`mds_max_purge_files`, with the in-flight map empty, recomputes the op limit but — the
branches being `else if` — schedules no wake-up, though the claim says one is scheduled
even when PG-derived keys changed in the same notification. -/
theorem claim9_counterexample :
    ([ConfKey.mds_max_purge_ops,
        ConfKey.mds_max_purge_files].contains ConfKey.mds_max_purge_files) = true ∧
    (handle_conf_change
      [ConfKey.mds_max_purge_ops, ConfKey.mds_max_purge_files] true).1 = true ∧
    (handle_conf_change
      [ConfKey.mds_max_purge_ops, ConfKey.mds_max_purge_files] true).2 = false := by
  decide

/-- C9 as amended: the op limit is recomputed iff the changed-key set contains
`mds_max_purge_ops` or `mds_max_purge_ops_per_pg`; the one-shot `_consume` wake-up is
scheduled iff the set contains `mds_max_purge_files`, contains neither PG-derived key
(the `else if` in the source), and the in-flight map is empty. -/
theorem claim9_handle_conf_change (changed : List ConfKey) (in_flight_empty : Bool) :
    ((handle_conf_change changed in_flight_empty).1 = true ↔
      (changed.contains ConfKey.mds_max_purge_ops = true ∨
        changed.contains ConfKey.mds_max_purge_ops_per_pg = true)) ∧
    ((handle_conf_change changed in_flight_empty).2 = true ↔
      (changed.contains ConfKey.mds_max_purge_files = true ∧
        changed.contains ConfKey.mds_max_purge_ops = false ∧
        changed.contains ConfKey.mds_max_purge_ops_per_pg = false ∧
        in_flight_empty = true)) := by
  unfold handle_conf_change
  by_cases h1 : changed.contains ConfKey.mds_max_purge_ops = true <;>
    by_cases h2 : changed.contains ConfKey.mds_max_purge_ops_per_pg = true <;>
      by_cases h3 : changed.contains ConfKey.mds_max_purge_files = true <;>
        simp_all <;> cases in_flight_empty <;> simp_all

end PQ
